import Mathlib

set_option maxHeartbeats 1000000

/-
Verification development for the element registration and disambiguation
pipeline of src/packages/web-components/fast-foundation/src/design-system/design-system.ts.

The embedding is shallow: the two module-level JavaScript Maps
(elementTypesByTag and elementTagsByType) become association lists with
JavaScript Map semantics (set overwrites an existing key in place, otherwise
appends; get returns the first binding), class identities become an inductive
type, and the while loop of tryDefineElement becomes a fuel-indexed recursive
function (the source loop can diverge under a policy that keeps renaming to
occupied names; fuel exhaustion is reported as a distinguished outcome and
never identified with a completed invocation).
-/

/-- JavaScript class identities used as element types.  `cls i` stands for a
user-defined class, `foundationElement` for the shared FoundationElement base
class, and `subclass parent id` for the anonymous class produced by the
on-the-fly subclassing expression inside tryDefineElement; `id` records the
value of the freshness counter at synthesis time, so distinct syntheses are
distinct identities. -/
inductive Ctor where
  | foundationElement
  | cls (i : Nat)
  | subclass (parent : Ctor) (id : Nat)
  deriving DecidableEq

/-- Class identities that calling code can actually name and pass into the
registration pipeline.  JavaScript code outside tryDefineElement cannot forge
the anonymous classes synthesized inside it (they are fresh object
identities), so attempt inputs are drawn from this type and injected into
`Ctor`. -/
inductive UserCtor where
  | fe
  | cls (i : Nat)
  deriving DecidableEq

def UserCtor.toCtor : UserCtor → Ctor
  | .fe => .foundationElement
  | .cls i => .cls i

/-- Runtime values used as keys of the tag registry.  In the source the key is
declared as a string, but the default branch of the disambiguation switch
casts an arbitrary policy result to string without any runtime conversion, so
a non-string value can flow into the Map as a key; `junk v` models such an
out-of-union value. -/
inductive JSName where
  | str (s : String)
  | junk (v : Nat)
  deriving DecidableEq

/-- Results of the disambiguation callback.  The declared TypeScript union is
closed (a rename string, ElementDisambiguation.definitionCallbackOnly, or
ElementDisambiguation.ignoreDuplicate); `invalid v` models a runtime value
outside that declared union, which the source's switch statement routes
through its default branch exactly like a rename string. -/
inductive DisambiguationResult where
  | rename (name : String)
  | definitionCallbackOnly
  | ignoreDuplicate
  | invalid (v : Nat)
  deriving DecidableEq

/-- The disambiguation callback type from the source
(`ElementDisambiguationCallback`): it receives the currently attempted name,
the type attempting to register, and the type already found under that name. -/
def DisambiguationCallback := JSName → Ctor → Ctor → DisambiguationResult

/-- JavaScript `Map.get`: the value of the first (unique) binding of the key. -/
def mapGet {α β : Type} [DecidableEq α] : List (α × β) → α → Option β
  | [], _ => none
  | p :: rest, k => if p.1 = k then some p.2 else mapGet rest k

/-- JavaScript `Map.set`: overwrite an existing binding in place, otherwise
append the new binding at the end. -/
def mapSet {α β : Type} [DecidableEq α] : List (α × β) → α → β → List (α × β)
  | [], k, v => [(k, v)]
  | p :: rest, k, v => if p.1 = k then (k, v) :: rest else p :: mapSet rest k v

/-- JavaScript `Map.has`. -/
def mapHas {α β : Type} [DecidableEq α] (m : List (α × β)) (k : α) : Bool :=
  (mapGet m k).isSome

theorem mapGet_mapSet_self {α β : Type} [DecidableEq α] (m : List (α × β)) (k : α) (v : β) :
    mapGet (mapSet m k v) k = some v := by
  induction m with
  | nil => simp [mapGet, mapSet]
  | cons p rest ih =>
    by_cases h : p.1 = k
    · simp [mapSet, h, mapGet]
    · simp [mapSet, h, mapGet, ih]

theorem mapGet_mapSet_ne {α β : Type} [DecidableEq α] (m : List (α × β)) {k k' : α} (v : β)
    (h : k' ≠ k) : mapGet (mapSet m k v) k' = mapGet m k' := by
  induction m with
  | nil =>
    simp only [mapSet, mapGet]
    rw [if_neg (fun hh => h hh.symm)]
  | cons p rest ih =>
    by_cases hp : p.1 = k
    · simp only [mapSet, if_pos hp, mapGet]
      rw [if_neg (fun hh => h hh.symm), if_neg (by rw [hp]; exact fun hh => h hh.symm)]
    · simp only [mapSet, if_neg hp, mapGet]
      by_cases hp' : p.1 = k'
      · rw [if_pos hp', if_pos hp']
      · rw [if_neg hp', if_neg hp', ih]

theorem mapGet_mapSet_cases {α β : Type} [DecidableEq α] {m : List (α × β)} {k k' : α}
    {v : β} {v' : β} (h : mapGet (mapSet m k v) k' = some v') :
    (k' = k ∧ v' = v) ∨ (k' ≠ k ∧ mapGet m k' = some v') := by
  by_cases hk : k' = k
  · subst hk
    rw [mapGet_mapSet_self] at h
    exact Or.inl ⟨rfl, (Option.some_injective _ h).symm⟩
  · rw [mapGet_mapSet_ne m v hk] at h
    exact Or.inr ⟨hk, h⟩

/-- The state held by the two module-level registries of design-system.ts,
together with the freshness counter that distinguishes synthesized
subclasses. -/
structure DSState where
  elementTypesByTag : List (JSName × Ctor)
  elementTagsByType : List (Ctor × JSName)
  nextSubclassId : Nat
  deriving DecidableEq

/-- The module-level initial state: both Maps start empty. -/
def initState : DSState := ⟨[], [], 0⟩

/-- `DesignSystem.tagFor`: looks the type up in elementTagsByType.  The
non-null assertion in the source is erased at runtime, so an unregistered
type yields the absent value (`undefined` in the original, `none` here),
not an error. -/
def tagFor (s : DSState) (type : Ctor) : Option JSName :=
  mapGet s.elementTagsByType type

/-- Outcome of the while loop of tryDefineElement. -/
inductive LoopOut where
  | abort
  | fuelOut
  | done (name : JSName) (needsDefine : Bool)
  deriving DecidableEq

/-- The while loop of tryDefineElement: while a type is found under the
attempted name, consult the disambiguation callback; ignoreDuplicate aborts
the attempt, definitionCallbackOnly leaves the loop with needsDefine cleared,
and any other result (a rename string, or an out-of-union value) becomes the
next attempted key.  Fuel bounds the number of callback consultations. -/
def disambiguationLoop (d : DisambiguationCallback) (type : Ctor)
    (typesByTag : List (JSName × Ctor)) : Nat → JSName → LoopOut
  | 0, name =>
    match mapGet typesByTag name with
    | none => .done name true
    | some _ => .fuelOut
  | fuel + 1, name =>
    match mapGet typesByTag name with
    | none => .done name true
    | some typeFoundByName =>
      match d name type typeFoundByName with
      | .ignoreDuplicate => .abort
      | .definitionCallbackOnly => .done name false
      | .rename s => disambiguationLoop d type typesByTag fuel (.str s)
      | .invalid v => disambiguationLoop d type typesByTag fuel (.junk v)

theorem disambiguationLoop_of_free {d : DisambiguationCallback} {type : Ctor}
    {m : List (JSName × Ctor)} {nm : JSName} (fuel : Nat) (h : mapGet m nm = none) :
    disambiguationLoop d type m fuel nm = .done nm true := by
  cases fuel <;> simp [disambiguationLoop, h]

theorem disambiguationLoop_done_true {d : DisambiguationCallback} {type : Ctor}
    {m : List (JSName × Ctor)} :
    ∀ {fuel : Nat} {nm n : JSName},
      disambiguationLoop d type m fuel nm = .done n true → mapGet m n = none := by
  intro fuel
  induction fuel with
  | zero =>
    intro nm n h
    simp only [disambiguationLoop] at h
    split at h
    · cases h
      assumption
    · cases h
  | succ fuel ih =>
    intro nm n h
    simp only [disambiguationLoop] at h
    split at h
    · cases h
      assumption
    · split at h
      · cases h
      · simp at h
      · exact ih h
      · exact ih h

/-- The caller-visible inputs of one tryDefineElement invocation: the
attempted tag name (a string in the source signature), the element type, an
identifier standing for the caller-supplied configuration callback, the
optional base class, and the fuel bound on the disambiguation loop. -/
structure Attempt where
  name : String
  type : UserCtor
  cb : Nat
  base : Option UserCtor
  fuel : Nat
  deriving DecidableEq

/-- One ElementDefinitionEntry as constructed at the end of tryDefineElement:
the resolved name, the (possibly synthesized) type, the shadow-root mode
captured from the design system, the callback identifier, and the willDefine
flag.  The DI container field of the source class is omitted: it is an
external collaborator never inspected by this layer. -/
structure EntryRec where
  name : JSName
  type : Ctor
  shadowRootMode : Option Nat
  cb : Nat
  willDefine : Bool
  deriving DecidableEq

/-- Result of one tryDefineElement invocation.  `ignored` is the early return
on ElementDisambiguation.ignoreDuplicate; `fuelOut` marks a run of the source
loop longer than the fuel bound (the source would keep looping);
`invalidError` is never produced by the code — it exists solely to express
the spec's fail-fast requirement for out-of-union disambiguation results, so
that the requirement can be stated and compared against what the code does. -/
inductive TryResult where
  | ignored
  | fuelOut
  | invalidError
  | entry (e : EntryRec)
  deriving DecidableEq

/-- The boolean condition of the subclass-synthesis step:
`elementTagsByType.has(type) || type === FoundationElement`. -/
def needsSynthesis (s : DSState) (type : Ctor) : Bool :=
  mapHas s.elementTagsByType type || type == Ctor.foundationElement

/-- The type stored by the needs-define branch: the synthesized subclass
`class extends type {}` when `needsSynthesis` holds, the original type
otherwise. -/
def synthesizedType (s : DSState) (type : Ctor) : Ctor :=
  if needsSynthesis s type then Ctor.subclass type s.nextSubclassId else type

/-- The freshness counter after the needs-define branch: one synthesis
consumes one fresh identity. -/
def nextIdAfter (s : DSState) (type : Ctor) : Nat :=
  if needsSynthesis s type then s.nextSubclassId + 1 else s.nextSubclassId

/-- The optional base-class filing:
`if (baseClass) { elementTagsByType.set(baseClass, elementName); }`. -/
def baseWrite (m : List (Ctor × JSName)) (base : Option UserCtor)
    (elName : JSName) : List (Ctor × JSName) :=
  match base with
  | some b => mapSet m b.toCtor elName
  | none => m

/-- tryDefineElement from the registration context built by
DefaultDesignSystem.register: run the disambiguation loop; on normal exit
with needsDefine still set, synthesize a fresh subclass when the type is
already filed or is FoundationElement, write both registries (and file the
base class under the same name when one was supplied), and in every
non-aborted case produce the definition entry that register will later
process. -/
def tryDefineElement (d : DisambiguationCallback) (mode : Option Nat)
    (s : DSState) (a : Attempt) : DSState × TryResult :=
  match disambiguationLoop d a.type.toCtor s.elementTypesByTag a.fuel (.str a.name) with
  | .abort => (s, .ignored)
  | .fuelOut => (s, .fuelOut)
  | .done elementName needsDefine =>
    if needsDefine then
      (⟨mapSet s.elementTypesByTag elementName (synthesizedType s a.type.toCtor),
        baseWrite (mapSet s.elementTagsByType (synthesizedType s a.type.toCtor) elementName)
          a.base elementName,
        nextIdAfter s a.type.toCtor⟩,
       .entry ⟨elementName, synthesizedType s a.type.toCtor, mode, a.cb, true⟩)
    else
      (s, .entry ⟨elementName, a.type.toCtor, mode, a.cb, false⟩)

theorem tryDefineElement_abort {d : DisambiguationCallback} {mode : Option Nat}
    {s : DSState} {a : Attempt}
    (h : disambiguationLoop d a.type.toCtor s.elementTypesByTag a.fuel (.str a.name)
      = .abort) : tryDefineElement d mode s a = (s, .ignored) := by
  unfold tryDefineElement
  rw [h]

theorem tryDefineElement_fuelOut {d : DisambiguationCallback} {mode : Option Nat}
    {s : DSState} {a : Attempt}
    (h : disambiguationLoop d a.type.toCtor s.elementTypesByTag a.fuel (.str a.name)
      = .fuelOut) : tryDefineElement d mode s a = (s, .fuelOut) := by
  unfold tryDefineElement
  rw [h]

theorem tryDefineElement_done_true {d : DisambiguationCallback} {mode : Option Nat}
    {s : DSState} {a : Attempt} {elName : JSName}
    (h : disambiguationLoop d a.type.toCtor s.elementTypesByTag a.fuel (.str a.name)
      = .done elName true) :
    tryDefineElement d mode s a
      = (⟨mapSet s.elementTypesByTag elName (synthesizedType s a.type.toCtor),
          baseWrite (mapSet s.elementTagsByType (synthesizedType s a.type.toCtor) elName)
            a.base elName,
          nextIdAfter s a.type.toCtor⟩,
         .entry ⟨elName, synthesizedType s a.type.toCtor, mode, a.cb, true⟩) := by
  unfold tryDefineElement
  rw [h]
  rfl

theorem tryDefineElement_done_false {d : DisambiguationCallback} {mode : Option Nat}
    {s : DSState} {a : Attempt} {elName : JSName}
    (h : disambiguationLoop d a.type.toCtor s.elementTypesByTag a.fuel (.str a.name)
      = .done elName false) :
    tryDefineElement d mode s a = (s, .entry ⟨elName, a.type.toCtor, mode, a.cb, false⟩) := by
  unfold tryDefineElement
  rw [h]
  rfl

/-- A sequence of tryDefineElement invocations issued during one register
call, threading the registry state and collecting the definition entries in
issue order.  The policy and shadow-root mode are fixed for the whole pass,
as register captures them once from the design system.  A fuel-exhausted
invocation (which in the source never returns) contributes no entry; all
claims are about completed invocations. -/
def runAttempts (d : DisambiguationCallback) (mode : Option Nat) :
    DSState → List Attempt → DSState × List EntryRec
  | s, [] => (s, [])
  | s, a :: rest =>
    let step := tryDefineElement d mode s a
    let r := runAttempts d mode step.1 rest
    match step.2 with
    | .entry e => (r.1, e :: r.2)
    | _ => r

/-- Observable events of the entry-processing loop at the end of register:
the invocation of an entry's deferred callback, and the platform
materialization (FASTElementDefinition.define) of an element name. -/
inductive RegEvent where
  | callbackRun (cb : Nat)
  | defineElt (name : JSName)
  deriving DecidableEq

/-- The entry-processing loop at the end of DefaultDesignSystem.register:
`for (const entry of entries) { entry.callback(entry); if (entry.willDefine
&& entry.definition !== null) entry.definition.define(); }`.  The abstract
function `fills` tells whether the callback with a given identifier invokes
defineElement on its entry, which is the only way the definition slot becomes
non-null; a callback receives only its own entry, so it cannot affect any
other entry's slot. -/
def runEntries (fills : Nat → Bool) : List EntryRec → List RegEvent
  | [] => []
  | e :: rest =>
    RegEvent.callbackRun e.cb ::
      ((if e.willDefine && fills e.cb then [RegEvent.defineElt e.name] else [])
        ++ runEntries fills rest)

/-- The event trace of one whole register call: run the attempts issued while
the DI container processes the registrations, then process the collected
entries. -/
def registerTrace (d : DisambiguationCallback) (mode : Option Nat)
    (fills : Nat → Bool) (s : DSState) (attempts : List Attempt) : List RegEvent :=
  runEntries fills (runAttempts d mode s attempts).2

/-- Projection of a trace to the callback identifiers it runs, in order. -/
def callbackEvents (tr : List RegEvent) : List Nat :=
  tr.filterMap fun ev =>
    match ev with
    | .callbackRun i => some i
    | .defineElt _ => none

/-- Projection of a trace to the element names it materializes, in order. -/
def defineEvents (tr : List RegEvent) : List JSName :=
  tr.filterMap fun ev =>
    match ev with
    | .callbackRun _ => none
    | .defineElt n => some n

/-- The default disambiguation policy of DefaultDesignSystem: always
ElementDisambiguation.definitionCallbackOnly. -/
def defaultDisambiguate : DisambiguationCallback :=
  fun _ _ _ => .definitionCallbackOnly

theorem callbackEvents_runEntries (fills : Nat → Bool) (es : List EntryRec) :
    callbackEvents (runEntries fills es) = es.map fun e => e.cb := by
  induction es with
  | nil => rfl
  | cons e rest ih =>
    by_cases h : (e.willDefine && fills e.cb) = true <;>
      simp [runEntries, callbackEvents, h, List.filterMap_append] <;>
      simpa [callbackEvents] using ih

theorem defineEvents_runEntries (fills : Nat → Bool) (es : List EntryRec) :
    defineEvents (runEntries fills es)
      = (es.filter fun e => e.willDefine && fills e.cb).map fun e => e.name := by
  induction es with
  | nil => rfl
  | cons e rest ih =>
    by_cases h : (e.willDefine && fills e.cb) = true <;>
      simp [runEntries, defineEvents, h, List.filterMap_append, List.filter_cons] <;>
      simpa [defineEvents] using ih

theorem runAttempts_append (d : DisambiguationCallback) (mode : Option Nat)
    (s : DSState) (l1 l2 : List Attempt) :
    runAttempts d mode s (l1 ++ l2)
      = ((runAttempts d mode (runAttempts d mode s l1).1 l2).1,
         (runAttempts d mode s l1).2
           ++ (runAttempts d mode (runAttempts d mode s l1).1 l2).2) := by
  induction l1 generalizing s with
  | nil => simp [runAttempts]
  | cons a rest ih =>
    simp only [List.cons_append, runAttempts]
    cases h : (tryDefineElement d mode s a).2 <;> simp [h, ih]

theorem tryDefineElement_cb {d : DisambiguationCallback} {mode : Option Nat}
    {s : DSState} {a : Attempt} {e : EntryRec}
    (h : (tryDefineElement d mode s a).2 = .entry e) : e.cb = a.cb := by
  cases hl : disambiguationLoop d a.type.toCtor s.elementTypesByTag a.fuel (.str a.name) with
  | abort =>
    rw [tryDefineElement_abort hl] at h
    cases h
  | fuelOut =>
    rw [tryDefineElement_fuelOut hl] at h
    cases h
  | done nm nd =>
    cases nd with
    | false =>
      rw [tryDefineElement_done_false hl] at h
      cases h
      rfl
    | true =>
      rw [tryDefineElement_done_true hl] at h
      cases h
      rfl

theorem mem_runAttempts_cb {d : DisambiguationCallback} {mode : Option Nat} :
    ∀ {s : DSState} {l : List Attempt} {e : EntryRec},
      e ∈ (runAttempts d mode s l).2 → e.cb ∈ l.map fun a => a.cb := by
  intro s l
  induction l generalizing s with
  | nil =>
    intro e h
    simp [runAttempts] at h
  | cons a rest ih =>
    intro e h
    simp only [runAttempts] at h
    split at h
    · rename_i e' heq
      rcases List.mem_cons.mp h with h | h
      · subst h
        simp [tryDefineElement_cb heq]
      · simp [ih h]
    · simp [ih h]

theorem callbackRun_mem_runEntries {fills : Nat → Bool} {c : Nat} :
    ∀ {es : List EntryRec}, RegEvent.callbackRun c ∈ runEntries fills es →
      c ∈ es.map fun e => e.cb := by
  intro es
  induction es with
  | nil =>
    intro h
    simp [runEntries] at h
  | cons e rest ih =>
    intro h
    simp only [runEntries, List.mem_cons, List.mem_append] at h
    rcases h with h | h | h
    · cases h
      simp
    · by_cases hw : (e.willDefine && fills e.cb) = true <;> simp [hw] at h
    · simp [ih h]

/-- The entry-processing order asserted by the spec's steps 4 and 5 read as
two separate phases: first every entry's deferred callback in production
order, then every still-needs-define entry with a non-empty definition slot
in production order.  This definition follows the claim's words and is
compared against the code's `runEntries`. -/
def specTwoPhaseTrace (fills : Nat → Bool) (es : List EntryRec) : List RegEvent :=
  (es.map fun e => RegEvent.callbackRun e.cb)
    ++ ((es.filter fun e => e.willDefine && fills e.cb).map
          fun e => RegEvent.defineElt e.name)

/-- Claim C2, counterexample: with two collision-free registrations under the
default policy, the source's single fused loop materializes the first
element before invoking the second entry's callback, so the trace is not the
phase-separated one the claim describes (all callbacks, and then all
definitions). -/
theorem c2_two_phase_counterexample :
    registerTrace defaultDisambiguate none (fun _ => true) initState
        [⟨"fast-anchor", .cls 0, 0, none, 1⟩, ⟨"fast-badge", .cls 1, 1, none, 1⟩]
      ≠ specTwoPhaseTrace (fun _ => true)
          (runAttempts defaultDisambiguate none initState
            [⟨"fast-anchor", .cls 0, 0, none, 1⟩, ⟨"fast-badge", .cls 1, 1, none, 1⟩]).2 := by
  decide

/-- Claim C2, amended: in every register call the deferred callbacks are
invoked exactly once per definition entry, in the order the entries were
produced, and platform materialization is triggered exactly for the entries
still marked needs-define whose definition slot is non-empty, also in entry
order — hence in the exact order the tryDefineElement calls were issued —
but each materialization happens immediately after its own entry's callback,
interleaved with later callbacks, not in a second pass. -/
theorem c2_amended_callback_and_define_order (d : DisambiguationCallback)
    (mode : Option Nat) (fills : Nat → Bool) (s : DSState) (attempts : List Attempt) :
    callbackEvents (registerTrace d mode fills s attempts)
        = ((runAttempts d mode s attempts).2.map fun e => e.cb)
      ∧ defineEvents (registerTrace d mode fills s attempts)
        = (((runAttempts d mode s attempts).2.filter
              fun e => e.willDefine && fills e.cb).map fun e => e.name) :=
  ⟨callbackEvents_runEntries fills (runAttempts d mode s attempts).2,
   defineEvents_runEntries fills (runAttempts d mode s attempts).2⟩

/-- Claim C3: when the disambiguation callback resolves a collision with
ignoreDuplicate, the whole tryDefineElement attempt is aborted: the pass
behaves exactly as if the attempt had not been issued (no registry write, no
definition entry), and the attempt's configuration callback never runs. -/
theorem c3_ignore_duplicate_aborts_attempt (d : DisambiguationCallback)
    (mode : Option Nat) (fills : Nat → Bool) (s : DSState)
    (pre post : List Attempt) (a : Attempt)
    (hab : disambiguationLoop d a.type.toCtor
        (runAttempts d mode s pre).1.elementTypesByTag a.fuel (.str a.name)
        = .abort) :
    runAttempts d mode s (pre ++ a :: post) = runAttempts d mode s (pre ++ post)
      ∧ ((∀ b ∈ pre ++ post, b.cb ≠ a.cb) →
          RegEvent.callbackRun a.cb ∉ registerTrace d mode fills s (pre ++ a :: post)) := by
  have habort : tryDefineElement d mode (runAttempts d mode s pre).1 a
      = ((runAttempts d mode s pre).1, .ignored) := tryDefineElement_abort hab
  have hstep : runAttempts d mode s (pre ++ a :: post)
      = runAttempts d mode s (pre ++ post) := by
    rw [runAttempts_append, runAttempts_append]
    have h2 : runAttempts d mode (runAttempts d mode s pre).1 (a :: post)
        = runAttempts d mode (runAttempts d mode s pre).1 post := by
      simp [runAttempts, habort]
    rw [h2]
  refine ⟨hstep, fun hcb hmem => ?_⟩
  unfold registerTrace at hmem
  rw [hstep] at hmem
  have h3 := callbackRun_mem_runEntries hmem
  have h4 : a.cb ∈ (pre ++ post).map fun b => b.cb := by
    rcases List.mem_map.mp h3 with ⟨e, he, hcbe⟩
    have := mem_runAttempts_cb he
    rw [hcbe] at this
    exact this
  rcases List.mem_map.mp h4 with ⟨b, hb, hbcb⟩
  exact hcb b hb hbcb

/-- A policy that ignores every duplicate, used to witness claim C3. -/
def ignorePolicy : DisambiguationCallback := fun _ _ _ => .ignoreDuplicate

/-- Witness for claim C3 at a concrete input: a pass that registers a name
and then attempts the same name under an ignore-everything policy. -/
theorem c3_witness :
    runAttempts ignorePolicy none initState
        ([⟨"fast-card", .cls 0, 0, none, 1⟩] ++ ⟨"fast-card", .cls 1, 1, none, 1⟩ :: [])
      = runAttempts ignorePolicy none initState ([⟨"fast-card", .cls 0, 0, none, 1⟩] ++ [])
    ∧ RegEvent.callbackRun 1 ∉ registerTrace ignorePolicy none (fun _ => true) initState
        ([⟨"fast-card", .cls 0, 0, none, 1⟩] ++ ⟨"fast-card", .cls 1, 1, none, 1⟩ :: []) := by
  have h := c3_ignore_duplicate_aborts_attempt ignorePolicy none (fun _ => true) initState
    [⟨"fast-card", .cls 0, 0, none, 1⟩] [] ⟨"fast-card", .cls 1, 1, none, 1⟩ (by decide)
  exact ⟨h.1, h.2 (by decide)⟩

/-- A policy that answers every collision with a value outside the declared
result union, used for claim C4. -/
def invalidPolicy : DisambiguationCallback := fun _ _ _ => .invalid 7

/-- Claim C4, counterexample: with a name collision and a policy returning a
value outside the closed three-variant set, tryDefineElement does not signal
an invalid-disambiguation-result error; it completes normally, producing a
definition entry whose resolved name is the out-of-union value used as a
fresh registry key. -/
theorem c4_no_failfast_counterexample :
    (tryDefineElement invalidPolicy none
        ⟨[(.str "fast-tab", .cls 0)], [(.cls 0, .str "fast-tab")], 0⟩
        ⟨"fast-tab", .cls 1, 0, none, 1⟩).2 ≠ .invalidError
      ∧ (tryDefineElement invalidPolicy none
          ⟨[(.str "fast-tab", .cls 0)], [(.cls 0, .str "fast-tab")], 0⟩
          ⟨"fast-tab", .cls 1, 0, none, 1⟩).2
        = .entry ⟨.junk 7, .cls 1, none, 0, true⟩ := by
  decide

/-- Claim C4, amended: a disambiguation result outside the closed set is not
validated; the switch's default branch handles it exactly like a rename,
re-probing the registry with the out-of-union value as key, and when that key
is unused the attempt proceeds to record it in the registries and produce a
normal definition entry.  No error outcome exists in the code. -/
theorem c4_amended_invalid_treated_as_rename (d : DisambiguationCallback)
    (mode : Option Nat) (s : DSState) (a : Attempt) (t0 : Ctor) (v : Nat) (f : Nat)
    (hfuel : a.fuel = f + 1)
    (hcol : mapGet s.elementTypesByTag (.str a.name) = some t0)
    (hinv : d (.str a.name) a.type.toCtor t0 = .invalid v)
    (hfree : mapGet s.elementTypesByTag (.junk v) = none) :
    (tryDefineElement d mode s a).2
        = .entry ⟨.junk v, synthesizedType s a.type.toCtor, mode, a.cb, true⟩
      ∧ mapGet (tryDefineElement d mode s a).1.elementTypesByTag (.junk v)
        = some (synthesizedType s a.type.toCtor)
      ∧ (tryDefineElement d mode s a).2 ≠ .invalidError := by
  have hloop : disambiguationLoop d a.type.toCtor s.elementTypesByTag a.fuel (.str a.name)
      = .done (.junk v) true := by
    rw [hfuel]
    simp only [disambiguationLoop, hcol, hinv]
    exact disambiguationLoop_of_free f hfree
  rw [tryDefineElement_done_true hloop]
  exact ⟨rfl, mapGet_mapSet_self _ _ _, by simp⟩

/-- Claim C10: a default-policy collision leaves both registries exactly as
before (the whole state is unchanged), still produces a definition entry with
willDefine cleared, whose callback runs without any platform definition, and
tagFor on the colliding new type still yields absence afterwards. -/
theorem c10_skip_frame_effect (mode : Option Nat) (fills : Nat → Bool)
    (s : DSState) (a : Attempt) (t0 : Ctor) (f : Nat)
    (hfuel : a.fuel = f + 1)
    (hcol : mapGet s.elementTypesByTag (.str a.name) = some t0)
    (hnew : tagFor s a.type.toCtor = none) :
    tryDefineElement defaultDisambiguate mode s a
        = (s, .entry ⟨.str a.name, a.type.toCtor, mode, a.cb, false⟩)
      ∧ tagFor (tryDefineElement defaultDisambiguate mode s a).1 a.type.toCtor = none
      ∧ runEntries fills [⟨.str a.name, a.type.toCtor, mode, a.cb, false⟩]
        = [RegEvent.callbackRun a.cb] := by
  have hloop : disambiguationLoop defaultDisambiguate a.type.toCtor
      s.elementTypesByTag a.fuel (.str a.name) = .done (.str a.name) false := by
    rw [hfuel]
    simp [disambiguationLoop, hcol, defaultDisambiguate]
  have hmain : tryDefineElement defaultDisambiguate mode s a
      = (s, .entry ⟨.str a.name, a.type.toCtor, mode, a.cb, false⟩) :=
    tryDefineElement_done_false hloop
  refine ⟨hmain, ?_, ?_⟩
  · rw [hmain]
    exact hnew
  · simp [runEntries]

/-- Witness for the amended claim C4 at a concrete input. -/
theorem c4_amended_witness :
    (tryDefineElement invalidPolicy none
        ⟨[(.str "fast-menu", .cls 0)], [(.cls 0, .str "fast-menu")], 0⟩
        ⟨"fast-menu", .cls 1, 3, none, 1⟩).2
        = .entry ⟨.junk 7,
            synthesizedType ⟨[(.str "fast-menu", .cls 0)], [(.cls 0, .str "fast-menu")], 0⟩
              (UserCtor.cls 1).toCtor, none, 3, true⟩
      ∧ mapGet (tryDefineElement invalidPolicy none
            ⟨[(.str "fast-menu", .cls 0)], [(.cls 0, .str "fast-menu")], 0⟩
            ⟨"fast-menu", .cls 1, 3, none, 1⟩).1.elementTypesByTag (.junk 7)
        = some (synthesizedType ⟨[(.str "fast-menu", .cls 0)], [(.cls 0, .str "fast-menu")], 0⟩
              (UserCtor.cls 1).toCtor)
      ∧ (tryDefineElement invalidPolicy none
            ⟨[(.str "fast-menu", .cls 0)], [(.cls 0, .str "fast-menu")], 0⟩
            ⟨"fast-menu", .cls 1, 3, none, 1⟩).2 ≠ .invalidError :=
  c4_amended_invalid_treated_as_rename invalidPolicy none
    ⟨[(.str "fast-menu", .cls 0)], [(.cls 0, .str "fast-menu")], 0⟩
    ⟨"fast-menu", .cls 1, 3, none, 1⟩ (.cls 0) 7 0 rfl (by decide) (by decide) (by decide)

/-- Witness for claim C10 at a concrete input. -/
theorem c10_witness :
    tryDefineElement defaultDisambiguate none
        ⟨[(.str "fast-tree", .cls 0)], [(.cls 0, .str "fast-tree")], 0⟩
        ⟨"fast-tree", .cls 1, 4, none, 1⟩
        = (⟨[(.str "fast-tree", .cls 0)], [(.cls 0, .str "fast-tree")], 0⟩,
           .entry ⟨.str "fast-tree", (UserCtor.cls 1).toCtor, none, 4, false⟩)
      ∧ tagFor (tryDefineElement defaultDisambiguate none
            ⟨[(.str "fast-tree", .cls 0)], [(.cls 0, .str "fast-tree")], 0⟩
            ⟨"fast-tree", .cls 1, 4, none, 1⟩).1 (UserCtor.cls 1).toCtor = none
      ∧ runEntries (fun _ => true)
            [⟨.str "fast-tree", (UserCtor.cls 1).toCtor, none, 4, false⟩]
        = [RegEvent.callbackRun 4] :=
  c10_skip_frame_effect none (fun _ => true)
    ⟨[(.str "fast-tree", .cls 0)], [(.cls 0, .str "fast-tree")], 0⟩
    ⟨"fast-tree", .cls 1, 4, none, 1⟩ (.cls 0) 0 rfl (by decide) (by decide)

/-- Claim C5: registering the identical (name, type) pair twice under the
default policy is idempotent: the first attempt records the pair in both
registries and yields a defining entry; the second attempt leaves the state
exactly as after the first and yields an entry with willDefine cleared;
tagFor returns the same name after either attempt; and the whole pass
materializes the platform definition at most once. -/
theorem c5_reregistration_idempotent (mode : Option Nat) (fills : Nat → Bool)
    (s : DSState) (n : String) (i : Nat) (cb1 cb2 f1 f2 : Nat)
    (hname : mapGet s.elementTypesByTag (.str n) = none)
    (htype : mapGet s.elementTagsByType (.cls i) = none) :
    runAttempts defaultDisambiguate mode s [⟨n, .cls i, cb1, none, f1⟩]
        = (⟨mapSet s.elementTypesByTag (.str n) (.cls i),
            mapSet s.elementTagsByType (.cls i) (.str n),
            s.nextSubclassId⟩,
           [⟨.str n, .cls i, mode, cb1, true⟩])
      ∧ runAttempts defaultDisambiguate mode s
            [⟨n, .cls i, cb1, none, f1⟩, ⟨n, .cls i, cb2, none, f2 + 1⟩]
        = (⟨mapSet s.elementTypesByTag (.str n) (.cls i),
            mapSet s.elementTagsByType (.cls i) (.str n),
            s.nextSubclassId⟩,
           [⟨.str n, .cls i, mode, cb1, true⟩, ⟨.str n, .cls i, mode, cb2, false⟩])
      ∧ tagFor ⟨mapSet s.elementTypesByTag (.str n) (.cls i),
            mapSet s.elementTagsByType (.cls i) (.str n),
            s.nextSubclassId⟩ (.cls i)
        = some (.str n)
      ∧ defineEvents (registerTrace defaultDisambiguate mode fills s
            [⟨n, .cls i, cb1, none, f1⟩, ⟨n, .cls i, cb2, none, f2 + 1⟩])
        = (if fills cb1 then [.str n] else []) := by
  have hloop1 : disambiguationLoop defaultDisambiguate (Ctor.cls i)
      s.elementTypesByTag f1 (.str n) = .done (.str n) true :=
    disambiguationLoop_of_free f1 hname
  have hstep1 : tryDefineElement defaultDisambiguate mode s ⟨n, .cls i, cb1, none, f1⟩
      = (⟨mapSet s.elementTypesByTag (.str n) (.cls i),
          mapSet s.elementTagsByType (.cls i) (.str n),
          s.nextSubclassId⟩,
         .entry ⟨.str n, .cls i, mode, cb1, true⟩) := by
    rw [tryDefineElement_done_true hloop1]
    simp [synthesizedType, needsSynthesis, mapHas, htype, baseWrite, nextIdAfter, beq_iff_eq,
      UserCtor.toCtor]
  have hcol : mapGet (mapSet s.elementTypesByTag (.str n) (.cls i)) (.str n)
      = some (.cls i) := mapGet_mapSet_self _ _ _
  have hstep2 : tryDefineElement defaultDisambiguate mode
      ⟨mapSet s.elementTypesByTag (.str n) (.cls i),
       mapSet s.elementTagsByType (.cls i) (.str n),
       s.nextSubclassId⟩ ⟨n, .cls i, cb2, none, f2 + 1⟩
      = (⟨mapSet s.elementTypesByTag (.str n) (.cls i),
          mapSet s.elementTagsByType (.cls i) (.str n),
          s.nextSubclassId⟩,
         .entry ⟨.str n, .cls i, mode, cb2, false⟩) := by
    have hloop2 : disambiguationLoop defaultDisambiguate (Ctor.cls i)
        (mapSet s.elementTypesByTag (.str n) (.cls i)) (f2 + 1) (.str n)
        = .done (.str n) false := by
      simp [disambiguationLoop, hcol, defaultDisambiguate]
    exact tryDefineElement_done_false hloop2
  have hrun1 : runAttempts defaultDisambiguate mode s [⟨n, .cls i, cb1, none, f1⟩]
      = (⟨mapSet s.elementTypesByTag (.str n) (.cls i),
          mapSet s.elementTagsByType (.cls i) (.str n),
          s.nextSubclassId⟩,
         [⟨.str n, .cls i, mode, cb1, true⟩]) := by
    simp [runAttempts, hstep1]
  have hrun2 : runAttempts defaultDisambiguate mode s
      [⟨n, .cls i, cb1, none, f1⟩, ⟨n, .cls i, cb2, none, f2 + 1⟩]
      = (⟨mapSet s.elementTypesByTag (.str n) (.cls i),
          mapSet s.elementTagsByType (.cls i) (.str n),
          s.nextSubclassId⟩,
         [⟨.str n, .cls i, mode, cb1, true⟩, ⟨.str n, .cls i, mode, cb2, false⟩]) := by
    simp [runAttempts, hstep1, hstep2]
  refine ⟨hrun1, hrun2, mapGet_mapSet_self _ _ _, ?_⟩
  unfold registerTrace
  rw [hrun2]
  by_cases hf : fills cb1 = true <;>
    simp [defineEvents_runEntries, List.filter_cons, hf]

/-- Witness for claim C5 at a concrete input. -/
theorem c5_witness :
    runAttempts defaultDisambiguate none initState [⟨"my-button", .cls 0, 0, none, 0⟩]
        = (⟨mapSet initState.elementTypesByTag (.str "my-button") (.cls 0),
            mapSet initState.elementTagsByType (.cls 0) (.str "my-button"),
            initState.nextSubclassId⟩,
           [⟨.str "my-button", .cls 0, none, 0, true⟩])
      ∧ runAttempts defaultDisambiguate none initState
            [⟨"my-button", .cls 0, 0, none, 0⟩, ⟨"my-button", .cls 0, 1, none, 0 + 1⟩]
        = (⟨mapSet initState.elementTypesByTag (.str "my-button") (.cls 0),
            mapSet initState.elementTagsByType (.cls 0) (.str "my-button"),
            initState.nextSubclassId⟩,
           [⟨.str "my-button", .cls 0, none, 0, true⟩,
            ⟨.str "my-button", .cls 0, none, 1, false⟩])
      ∧ tagFor ⟨mapSet initState.elementTypesByTag (.str "my-button") (.cls 0),
            mapSet initState.elementTagsByType (.cls 0) (.str "my-button"),
            initState.nextSubclassId⟩ (.cls 0)
        = some (.str "my-button")
      ∧ defineEvents (registerTrace defaultDisambiguate none (fun _ => true) initState
            [⟨"my-button", .cls 0, 0, none, 0⟩, ⟨"my-button", .cls 0, 1, none, 0 + 1⟩])
        = (if (fun _ => true : Nat → Bool) 0 then [.str "my-button"] else []) :=
  c5_reregistration_idempotent none (fun _ => true) initState "my-button" 0 0 1 0 0
    (by decide) (by decide)

/-- The rename policy of the spec's rename-determinism property: always
rename a colliding name by appending the suffix. -/
def renamePolicy : DisambiguationCallback := fun nm _ _ =>
  match nm with
  | .str s => .rename (s ++ "-2")
  | .junk _ => .rename "fast-renamed"

/-- Claim C6: under a policy that renames every collision to the name with a
suffix, registering foo-button with type A and then foo-button with type B
records B under foo-button-2, and tagFor resolves the two types to the two
names independently. -/
theorem c6_rename_determinism :
    tagFor (runAttempts renamePolicy none initState
        [⟨"foo-button", .cls 0, 0, none, 2⟩, ⟨"foo-button", .cls 1, 1, none, 2⟩]).1
        (.cls 0)
      = some (.str "foo-button")
    ∧ tagFor (runAttempts renamePolicy none initState
          [⟨"foo-button", .cls 0, 0, none, 2⟩, ⟨"foo-button", .cls 1, 1, none, 2⟩]).1
          (.cls 1)
      = some (.str "foo-button-2")
    ∧ mapGet (runAttempts renamePolicy none initState
          [⟨"foo-button", .cls 0, 0, none, 2⟩, ⟨"foo-button", .cls 1, 1, none, 2⟩]).1.elementTypesByTag
          (.str "foo-button")
      = some (.cls 0)
    ∧ mapGet (runAttempts renamePolicy none initState
          [⟨"foo-button", .cls 0, 0, none, 2⟩, ⟨"foo-button", .cls 1, 1, none, 2⟩]).1.elementTypesByTag
          (.str "foo-button-2")
      = some (.cls 1) := by
  decide

theorem UserCtor.toCtor_inj {u v : UserCtor} (h : u.toCtor = v.toCtor) : u = v := by
  cases u <;> cases v <;> simp [UserCtor.toCtor] at h <;> simp [h]

theorem subclass_ne_toCtor (p : Ctor) (k : Nat) (u : UserCtor) :
    Ctor.subclass p k ≠ u.toCtor := by
  cases u <;> simp [UserCtor.toCtor]

theorem tagFor_preserved_step {d : DisambiguationCallback} {mode : Option Nat}
    {s : DSState} {a : Attempt} {u : UserCtor}
    (hu1 : a.type ≠ u) (hu2 : a.base ≠ some u) (hs : tagFor s u.toCtor = none) :
    tagFor (tryDefineElement d mode s a).1 u.toCtor = none := by
  cases hl : disambiguationLoop d a.type.toCtor s.elementTypesByTag a.fuel (.str a.name) with
  | abort =>
    rw [tryDefineElement_abort hl]
    exact hs
  | fuelOut =>
    rw [tryDefineElement_fuelOut hl]
    exact hs
  | done nm nd =>
    cases nd with
    | false =>
      rw [tryDefineElement_done_false hl]
      exact hs
    | true =>
      rw [tryDefineElement_done_true hl]
      have hT : u.toCtor ≠ synthesizedType s a.type.toCtor := by
        unfold synthesizedType
        by_cases hsyn : needsSynthesis s a.type.toCtor = true
        · rw [if_pos hsyn]
          exact fun hh => subclass_ne_toCtor _ _ u hh.symm
        · rw [if_neg hsyn]
          exact fun hh => hu1 (UserCtor.toCtor_inj hh.symm)
      show mapGet (baseWrite
          (mapSet s.elementTagsByType (synthesizedType s a.type.toCtor) nm)
          a.base nm) u.toCtor = none
      cases hb : a.base with
      | none =>
        unfold baseWrite
        rw [mapGet_mapSet_ne _ _ hT]
        exact hs
      | some b =>
        have hbne : u.toCtor ≠ b.toCtor := by
          intro hh
          exact hu2 (by rw [hb]; exact congrArg some (UserCtor.toCtor_inj hh).symm)
        unfold baseWrite
        rw [mapGet_mapSet_ne _ _ hbne, mapGet_mapSet_ne _ _ hT]
        exact hs

/-- Claim C9: tagFor on an element type that has never been recorded in the
type-to-tag registry yields absence (none), not an error: starting from any
state in which the type is unrecorded, any completed sequence of
tryDefineElement invocations that never passes that type (either as the
registered type or as a base class) leaves tagFor on it absent, and the
lookup itself is a total function with no failure mode. -/
theorem c9_tagFor_absent_for_unregistered (d : DisambiguationCallback)
    (mode : Option Nat) (attempts : List Attempt) (u : UserCtor) (s : DSState)
    (hs : tagFor s u.toCtor = none)
    (h : ∀ a ∈ attempts, a.type ≠ u ∧ a.base ≠ some u) :
    tagFor (runAttempts d mode s attempts).1 u.toCtor = none := by
  induction attempts generalizing s with
  | nil => exact hs
  | cons a rest ih =>
    have hstep := @tagFor_preserved_step d mode s a u
      (h a (by simp)).1 (h a (by simp)).2 hs
    have hrest : ∀ b ∈ rest, b.type ≠ u ∧ b.base ≠ some u :=
      fun b hb => h b (List.mem_cons_of_mem a hb)
    simp only [runAttempts]
    split
    all_goals exact ih _ hstep hrest

/-- Witness for claim C9 at a concrete input. -/
theorem c9_witness :
    tagFor initState (UserCtor.cls 9).toCtor = none
      ∧ tagFor (runAttempts defaultDisambiguate none initState
          [⟨"fast-dialog", .cls 0, 0, some .fe, 1⟩]).1 (UserCtor.cls 9).toCtor = none :=
  ⟨by decide,
   c9_tagFor_absent_for_unregistered defaultDisambiguate none
     [⟨"fast-dialog", .cls 0, 0, some .fe, 1⟩] (.cls 9) initState
     (by decide) (by decide)⟩

theorem subclass_ne : ∀ (t : Ctor) (k : Nat), Ctor.subclass t k ≠ t := by
  intro t
  induction t with
  | foundationElement =>
    intro k h
    cases h
  | cls i =>
    intro k h
    cases h
  | subclass p i ih =>
    intro k h
    injection h with h1 h2
    exact ih i h1

/-- Invariant relating the two registries: every type filed in
elementTagsByType is filed under a name that is occupied in
elementTypesByTag.  It holds in the initial state and is preserved by every
tryDefineElement invocation, because each write to elementTagsByType uses a
name that the same invocation also writes to elementTypesByTag (and names are
never removed from elementTypesByTag). -/
def TagsHaveTypes (s : DSState) : Prop :=
  ∀ t n, mapGet s.elementTagsByType t = some n → mapGet s.elementTypesByTag n ≠ none

/-- Claim C7: in a needs-define completion of tryDefineElement (in a state
satisfying the registry invariant), a distinct subclass identity is
synthesized exactly when the element type is already on file under a
different name or is the generic FoundationElement base type; the resolved
name and the stored type are recorded in both registries; and a supplied base
class is filed under the same resolved name in the type-to-tag registry. -/
theorem c7_synthesis_and_recording (d : DisambiguationCallback) (mode : Option Nat)
    (s : DSState) (a : Attempt) (s' : DSState) (e : EntryRec)
    (hInv : TagsHaveTypes s)
    (h : tryDefineElement d mode s a = (s', .entry e))
    (hdef : e.willDefine = true) :
    (((∃ n', mapGet s.elementTagsByType a.type.toCtor = some n' ∧ n' ≠ e.name)
        ∨ a.type.toCtor = Ctor.foundationElement)
      → e.type = Ctor.subclass a.type.toCtor s.nextSubclassId ∧ e.type ≠ a.type.toCtor)
    ∧ (¬ ((∃ n', mapGet s.elementTagsByType a.type.toCtor = some n' ∧ n' ≠ e.name)
           ∨ a.type.toCtor = Ctor.foundationElement)
      → e.type = a.type.toCtor)
    ∧ mapGet s'.elementTypesByTag e.name = some e.type
    ∧ mapGet s'.elementTagsByType e.type = some e.name
    ∧ (∀ b, a.base = some b → mapGet s'.elementTagsByType b.toCtor = some e.name) := by
  cases hl : disambiguationLoop d a.type.toCtor s.elementTypesByTag a.fuel (.str a.name) with
  | abort =>
    rw [tryDefineElement_abort hl] at h
    simp at h
  | fuelOut =>
    rw [tryDefineElement_fuelOut hl] at h
    simp at h
  | done nm nd =>
    cases nd with
    | false =>
      rw [tryDefineElement_done_false hl] at h
      injection h with h1 h2
      injection h2 with h3
      subst h3
      simp at hdef
    | true =>
      rw [tryDefineElement_done_true hl] at h
      injection h with h1 h2
      injection h2 with h3
      subst h3
      subst h1
      have hfree : mapGet s.elementTypesByTag nm = none := disambiguationLoop_done_true hl
      have hiff : needsSynthesis s a.type.toCtor = true ↔
          ((∃ n', mapGet s.elementTagsByType a.type.toCtor = some n' ∧ n' ≠ nm)
            ∨ a.type.toCtor = Ctor.foundationElement) := by
        unfold needsSynthesis mapHas
        rw [Bool.or_eq_true, beq_iff_eq, Option.isSome_iff_exists]
        constructor
        · rintro (⟨n', hn'⟩ | hfe)
          · refine Or.inl ⟨n', hn', fun heq => ?_⟩
            subst heq
            exact hInv _ _ hn' hfree
          · exact Or.inr hfe
        · rintro (⟨n', hn', _⟩ | hfe)
          · exact Or.inl ⟨n', hn'⟩
          · exact Or.inr hfe
      refine ⟨?_, ?_, ?_, ?_, ?_⟩
      · intro hspec
        have hc := hiff.mpr hspec
        constructor
        · simp [synthesizedType, hc]
        · simp only [synthesizedType, hc, if_true]
          exact subclass_ne _ _
      · intro hnspec
        have hc : needsSynthesis s a.type.toCtor = false := by
          cases hcc : needsSynthesis s a.type.toCtor
          · rfl
          · exact absurd (hiff.mp hcc) hnspec
        simp [synthesizedType, hc]
      · exact mapGet_mapSet_self _ _ _
      · show mapGet (baseWrite
            (mapSet s.elementTagsByType (synthesizedType s a.type.toCtor) nm) a.base nm)
            (synthesizedType s a.type.toCtor) = some nm
        cases hb : a.base with
        | none =>
          unfold baseWrite
          exact mapGet_mapSet_self _ _ _
        | some b =>
          unfold baseWrite
          by_cases hbt : synthesizedType s a.type.toCtor = b.toCtor
          · rw [hbt]
            exact mapGet_mapSet_self _ _ _
          · rw [mapGet_mapSet_ne _ _ hbt]
            exact mapGet_mapSet_self _ _ _
      · intro b hb
        show mapGet (baseWrite
            (mapSet s.elementTagsByType (synthesizedType s a.type.toCtor) nm) a.base nm)
            b.toCtor = some nm
        rw [hb]
        unfold baseWrite
        exact mapGet_mapSet_self _ _ _

/-- Witness for claim C7 at a concrete input in which synthesis fires: the
type is already filed under another name, and a base class is supplied. -/
theorem c7_witness :
    (((∃ n', mapGet [((Ctor.cls 0 : Ctor), JSName.str "fast-one")] (UserCtor.cls 0).toCtor
          = some n' ∧ n' ≠ JSName.str "fast-two")
        ∨ (UserCtor.cls 0).toCtor = Ctor.foundationElement)
      → Ctor.subclass (Ctor.cls 0) 0 = Ctor.subclass (UserCtor.cls 0).toCtor 0
          ∧ Ctor.subclass (Ctor.cls 0) 0 ≠ (UserCtor.cls 0).toCtor)
    ∧ (¬ ((∃ n', mapGet [((Ctor.cls 0 : Ctor), JSName.str "fast-one")] (UserCtor.cls 0).toCtor
            = some n' ∧ n' ≠ JSName.str "fast-two")
          ∨ (UserCtor.cls 0).toCtor = Ctor.foundationElement)
      → Ctor.subclass (Ctor.cls 0) 0 = (UserCtor.cls 0).toCtor)
    ∧ mapGet [(JSName.str "fast-one", Ctor.cls 0),
        (JSName.str "fast-two", Ctor.subclass (Ctor.cls 0) 0)] (JSName.str "fast-two")
      = some (Ctor.subclass (Ctor.cls 0) 0)
    ∧ mapGet [(Ctor.cls 0, JSName.str "fast-one"),
        (Ctor.subclass (Ctor.cls 0) 0, JSName.str "fast-two"),
        (Ctor.cls 5, JSName.str "fast-two")] (Ctor.subclass (Ctor.cls 0) 0)
      = some (JSName.str "fast-two")
    ∧ (∀ b, (some (UserCtor.cls 5) : Option UserCtor) = some b →
        mapGet [(Ctor.cls 0, JSName.str "fast-one"),
          (Ctor.subclass (Ctor.cls 0) 0, JSName.str "fast-two"),
          (Ctor.cls 5, JSName.str "fast-two")] b.toCtor = some (JSName.str "fast-two")) :=
  c7_synthesis_and_recording defaultDisambiguate none
    ⟨[(.str "fast-one", .cls 0)], [(.cls 0, .str "fast-one")], 0⟩
    ⟨"fast-two", .cls 0, 2, some (.cls 5), 1⟩
    ⟨[(.str "fast-one", .cls 0), (.str "fast-two", .subclass (.cls 0) 0)],
     [(.cls 0, .str "fast-one"), (.subclass (.cls 0) 0, .str "fast-two"),
      (.cls 5, .str "fast-two")], 1⟩
    ⟨.str "fast-two", .subclass (.cls 0) 0, none, 2, true⟩
    (by
      intro t n h
      simp only [mapGet] at h
      split at h
      · cases h
        rename_i ht
        decide
      · cases h)
    (by decide) rfl

/-- Bidirectional consistency of the two registries: a name maps to a type in
elementTypesByTag exactly when that type maps back to that name in
elementTagsByType. -/
def BidirMaps (m1 : List (JSName × Ctor)) (m2 : List (Ctor × JSName)) : Prop :=
  ∀ n t, mapGet m1 n = some t ↔ mapGet m2 t = some n

def BidirConsistent (s : DSState) : Prop :=
  BidirMaps s.elementTypesByTag s.elementTagsByType

/-- Every synthesized subclass filed in elementTagsByType was created with an
identity strictly below the current freshness counter, so the next synthesis
cannot collide with a filed one. -/
def SubclassIdsBounded (s : DSState) : Prop :=
  ∀ p i n, mapGet s.elementTagsByType (Ctor.subclass p i) = some n → i < s.nextSubclassId

theorem bidirMaps_insert {m1 : List (JSName × Ctor)} {m2 : List (Ctor × JSName)}
    (hB : BidirMaps m1 m2) {nm : JSName} {tp : Ctor}
    (hn : mapGet m1 nm = none) (ht : mapGet m2 tp = none) :
    BidirMaps (mapSet m1 nm tp) (mapSet m2 tp nm) := by
  intro n t
  by_cases hn' : n = nm <;> by_cases ht' : t = tp
  · rw [hn', ht', mapGet_mapSet_self, mapGet_mapSet_self]
    simp
  · rw [hn', mapGet_mapSet_self, mapGet_mapSet_ne _ _ ht']
    constructor
    · intro hh
      cases hh
      exact absurd rfl ht'
    · intro hh
      have hcon := (hB nm t).mpr hh
      rw [hn] at hcon
      cases hcon
  · rw [ht', mapGet_mapSet_ne _ _ hn', mapGet_mapSet_self]
    constructor
    · intro hh
      have hcon := (hB n tp).mp hh
      rw [ht] at hcon
      cases hcon
    · intro hh
      cases hh
      exact absurd rfl hn'
  · rw [mapGet_mapSet_ne _ _ hn', mapGet_mapSet_ne _ _ ht']
    exact hB n t

theorem inv_preserved_step {d : DisambiguationCallback} {mode : Option Nat}
    {s : DSState} {a : Attempt}
    (hbase : a.base = none)
    (h1 : BidirConsistent s) (h2 : SubclassIdsBounded s) :
    BidirConsistent (tryDefineElement d mode s a).1
      ∧ SubclassIdsBounded (tryDefineElement d mode s a).1 := by
  cases hl : disambiguationLoop d a.type.toCtor s.elementTypesByTag a.fuel (.str a.name) with
  | abort =>
    rw [tryDefineElement_abort hl]
    exact ⟨h1, h2⟩
  | fuelOut =>
    rw [tryDefineElement_fuelOut hl]
    exact ⟨h1, h2⟩
  | done nm nd =>
    cases nd with
    | false =>
      rw [tryDefineElement_done_false hl]
      exact ⟨h1, h2⟩
    | true =>
      rw [tryDefineElement_done_true hl]
      have hfree : mapGet s.elementTypesByTag nm = none := disambiguationLoop_done_true hl
      have hT : mapGet s.elementTagsByType (synthesizedType s a.type.toCtor) = none := by
        by_cases hsyn : needsSynthesis s a.type.toCtor = true
        · rw [synthesizedType, if_pos hsyn]
          cases hg : mapGet s.elementTagsByType
              (Ctor.subclass a.type.toCtor s.nextSubclassId) with
          | none => rfl
          | some n => exact absurd (h2 _ _ _ hg) (Nat.lt_irrefl _)
        · rw [synthesizedType, if_neg hsyn]
          cases hg : mapGet s.elementTagsByType a.type.toCtor with
          | none => rfl
          | some n =>
            exfalso
            apply hsyn
            unfold needsSynthesis mapHas
            rw [hg]
            simp
      constructor
      · intro n t
        rw [hbase]
        unfold baseWrite
        exact bidirMaps_insert h1 hfree hT n t
      · intro p i n hg
        rw [hbase] at hg
        unfold baseWrite at hg
        show i < nextIdAfter s a.type.toCtor
        rcases mapGet_mapSet_cases hg with ⟨hk, _⟩ | ⟨_, hg'⟩
        · unfold nextIdAfter
          by_cases hsyn : needsSynthesis s a.type.toCtor = true
          · rw [if_pos hsyn]
            rw [synthesizedType, if_pos hsyn] at hk
            injection hk with hk1 hk2
            omega
          · rw [synthesizedType, if_neg hsyn] at hk
            cases hat : a.type <;> rw [hat] at hk <;> simp [UserCtor.toCtor] at hk
        · have hlt := h2 p i n hg'
          unfold nextIdAfter
          by_cases hsyn : needsSynthesis s a.type.toCtor = true
          · rw [if_pos hsyn]
            omega
          · rw [if_neg hsyn]
            exact hlt

theorem runAttempts_fst (d : DisambiguationCallback) (mode : Option Nat)
    (s : DSState) (a : Attempt) (rest : List Attempt) :
    (runAttempts d mode s (a :: rest)).1
      = (runAttempts d mode (tryDefineElement d mode s a).1 rest).1 := by
  simp only [runAttempts]
  split <;> rfl

theorem inv_preserved_run {d : DisambiguationCallback} {mode : Option Nat} :
    ∀ {s : DSState} {attempts : List Attempt},
      (∀ a ∈ attempts, a.base = none) →
      BidirConsistent s → SubclassIdsBounded s →
      BidirConsistent (runAttempts d mode s attempts).1
        ∧ SubclassIdsBounded (runAttempts d mode s attempts).1 := by
  intro s attempts
  induction attempts generalizing s with
  | nil =>
    intro _ h1 h2
    exact ⟨h1, h2⟩
  | cons a rest ih =>
    intro hb h1 h2
    have hstep := @inv_preserved_step d mode s a (hb a (by simp)) h1 h2
    rw [runAttempts_fst]
    exact ih (fun b hbm => hb b (List.mem_cons_of_mem a hbm)) hstep.1 hstep.2

/-- Claim C1, counterexample: supplying a base class breaks bidirectional
consistency.  Registering type 0 under fast-one and then type 1 under
fast-two with base class type 0 overwrites type 0's filed tag: afterwards
fast-one still maps to type 0 in the tag-to-type registry, but type 0 maps to
fast-two in the type-to-tag registry, so the entry (fast-one, type 0) has no
corresponding reverse entry — and no subclass was synthesized in this run, so
the synthesized-subclass carve-out does not apply. -/
theorem c1_base_class_counterexample :
    mapGet (runAttempts defaultDisambiguate none initState
        [⟨"fast-one", .cls 0, 0, none, 1⟩,
         ⟨"fast-two", .cls 1, 1, some (.cls 0), 1⟩]).1.elementTypesByTag
        (.str "fast-one") = some (.cls 0)
    ∧ mapGet (runAttempts defaultDisambiguate none initState
        [⟨"fast-one", .cls 0, 0, none, 1⟩,
         ⟨"fast-two", .cls 1, 1, some (.cls 0), 1⟩]).1.elementTagsByType
        (.cls 0) = some (.str "fast-two")
    ∧ ¬ BidirConsistent (runAttempts defaultDisambiguate none initState
        [⟨"fast-one", .cls 0, 0, none, 1⟩,
         ⟨"fast-two", .cls 1, 1, some (.cls 0), 1⟩]).1 := by
  refine ⟨by decide, by decide, fun hB => ?_⟩
  have h := (hB (.str "fast-one") (.cls 0)).mp (by decide)
  have h2 : mapGet (runAttempts defaultDisambiguate none initState
      [⟨"fast-one", .cls 0, 0, none, 1⟩,
       ⟨"fast-two", .cls 1, 1, some (.cls 0), 1⟩]).1.elementTagsByType
      (.cls 0) = some (.str "fast-two") := by decide
  rw [h] at h2
  injection h2 with h3
  injection h3 with h4
  exact absurd h4 (by decide)

/-- Claim C1, amended: for every sequence of completed registration passes in
which no tryDefineElement attempt supplies a base class, the two global
registries stay bidirectionally consistent — every entry of either map has
the corresponding reverse entry in the other, so names and types determine
each other — with synthesized subclasses participating as ordinary filed
types.  A supplied base class, however, is filed in the type-to-tag registry
without a reverse entry and may overwrite the base type's own recorded tag. -/
theorem c1_amended_bidir_consistency_no_base (d : DisambiguationCallback)
    (mode : Option Nat) (attempts : List Attempt)
    (hbase : ∀ a ∈ attempts, a.base = none) :
    BidirConsistent (runAttempts d mode initState attempts).1 :=
  (inv_preserved_run hbase
    (by intro n t; simp [initState, mapGet])
    (by intro p i n hg; simp [initState, mapGet] at hg)).1

/-- Witness for the amended claim C1 at a concrete input. -/
theorem c1_amended_witness :
    (∀ a ∈ [(⟨"fast-one", .cls 0, 0, none, 1⟩ : Attempt),
            ⟨"fast-one", .cls 1, 1, none, 2⟩], a.base = none)
    ∧ BidirConsistent (runAttempts defaultDisambiguate none initState
        [⟨"fast-one", .cls 0, 0, none, 1⟩, ⟨"fast-one", .cls 1, 1, none, 2⟩]).1 :=
  ⟨by decide,
   c1_amended_bidir_consistency_no_base defaultDisambiguate none
     [⟨"fast-one", .cls 0, 0, none, 1⟩, ⟨"fast-one", .cls 1, 1, none, 2⟩]
     (by decide)⟩

/-- Modelled from the spec: the DOM and DI environment that
DesignSystem.getOrCreate and DesignSystem.responsibleFor interact with.  The
DI module (di.ts) is not part of the provided sources; following the spec,
nodes form a tree through `parent`, a design system may be attached directly
to a node (the source's expando property on the element), a node may own a DI
container, and a container may have a design system registered on it under
the design-system key.  Design systems and containers are identified by
numbers drawn from one freshness counter, so distinct creations are distinct
instances. -/
structure DOMWorld where
  parent : List (Nat × Nat)
  attachedDS : List (Nat × Nat)
  nodeContainer : List (Nat × Nat)
  containerDS : List (Nat × Nat)
  fresh : Nat
  deriving DecidableEq

/-- Modelled from the spec: DI.getOrCreateDOMContainer for a node — return
the container owned by the node, creating and recording a fresh one if the
node has none. -/
def getOrCreateDOMContainer (w : DOMWorld) (node : Nat) : Nat × DOMWorld :=
  match mapGet w.nodeContainer node with
  | some c => (c, w)
  | none =>
    (w.fresh,
     ⟨w.parent, w.attachedDS, mapSet w.nodeContainer node w.fresh,
      w.containerDS, w.fresh + 1⟩)

/-- DesignSystem.getOrCreate for a given node, following the source: return
the design system attached to the node if present; otherwise obtain or create
the node's DI container; if that container already has a design system
registered, return it (without attaching it to the node); otherwise create a
fresh design system whose construction attaches it to the node, register it
on the container, and return it.  The container operations are modelled from
the spec, the control flow is the source's. -/
def getOrCreate (w : DOMWorld) (node : Nat) : Nat × DOMWorld :=
  match mapGet w.attachedDS node with
  | some d => (d, w)
  | none =>
    let cw := getOrCreateDOMContainer w node
    match mapGet cw.2.containerDS cw.1 with
    | some d => (d, cw.2)
    | none =>
      (cw.2.fresh,
       ⟨cw.2.parent,
        mapSet cw.2.attachedDS node cw.2.fresh,
        cw.2.nodeContainer,
        mapSet cw.2.containerDS cw.1 cw.2.fresh,
        cw.2.fresh + 1⟩)

/-- Modelled from the spec: DI.findResponsibleContainer — walk up the DOM
ownership chain from the node to the nearest node owning a DI container.
Fuel bounds the walk by the tree depth. -/
def findResponsibleContainer (w : DOMWorld) : Nat → Nat → Option Nat
  | 0, node => mapGet w.nodeContainer node
  | fuel + 1, node =>
    match mapGet w.nodeContainer node with
    | some c => some c
    | none =>
      match mapGet w.parent node with
      | some p => findResponsibleContainer w fuel p
      | none => none

/-- DesignSystem.responsibleFor, following the source: return the design
system attached to the node if present, otherwise ask the responsible
container for its registered design system.  Container resolution is
modelled from the spec; the root-design-system fallback of an empty
container is out of this model's scope, so a miss is `none`. -/
def responsibleFor (w : DOMWorld) (fuel : Nat) (node : Nat) : Option Nat :=
  match mapGet w.attachedDS node with
  | some d => some d
  | none =>
    match findResponsibleContainer w fuel node with
    | some c => mapGet w.containerDS c
    | none => none

/-- Claim C8: getOrCreate is idempotent per node (a second call with the same
node returns the identical design-system instance); a call with a different,
unrelated node returns a distinct instance; and responsibleFor on a child
node with no design system and no container of its own resolves to the
instance created for its parent. -/
theorem c8_getOrCreate_scoping (w : DOMWorld) (x y z : Nat)
    (hxa : mapGet w.attachedDS x = none) (hxc : mapGet w.nodeContainer x = none)
    (hya : mapGet w.attachedDS y = none) (hyc : mapGet w.nodeContainer y = none)
    (hyx : y ≠ x)
    (hcf1 : mapGet w.containerDS w.fresh = none)
    (hcf2 : mapGet w.containerDS (w.fresh + 2) = none)
    (hz : mapGet w.parent z = some x)
    (hza : mapGet w.attachedDS z = none) (hzc : mapGet w.nodeContainer z = none)
    (hzx : z ≠ x) (hzy : z ≠ y) :
    (getOrCreate (getOrCreate w x).2 x).1 = (getOrCreate w x).1
    ∧ (getOrCreate (getOrCreate w x).2 y).1 ≠ (getOrCreate w x).1
    ∧ responsibleFor (getOrCreate (getOrCreate w x).2 y).2 1 z
      = some (getOrCreate w x).1 := by
  have hne1 : w.fresh + 2 ≠ w.fresh := by omega
  have hne2 : w.fresh ≠ w.fresh + 2 := by omega
  have hxy : x ≠ y := Ne.symm hyx
  have hgx : getOrCreate w x
      = (w.fresh + 1,
         ⟨w.parent, mapSet w.attachedDS x (w.fresh + 1),
          mapSet w.nodeContainer x w.fresh,
          mapSet w.containerDS w.fresh (w.fresh + 1),
          w.fresh + 2⟩) := by
    simp [getOrCreate, getOrCreateDOMContainer, hxa, hxc, hcf1]
  have hgy : getOrCreate (getOrCreate w x).2 y
      = (w.fresh + 3,
         ⟨w.parent,
          mapSet (mapSet w.attachedDS x (w.fresh + 1)) y (w.fresh + 3),
          mapSet (mapSet w.nodeContainer x w.fresh) y (w.fresh + 2),
          mapSet (mapSet w.containerDS w.fresh (w.fresh + 1)) (w.fresh + 2) (w.fresh + 3),
          w.fresh + 4⟩) := by
    rw [hgx]
    simp [getOrCreate, getOrCreateDOMContainer,
      mapGet_mapSet_ne _ _ hyx, hya, hyc, mapGet_mapSet_ne _ _ hne1, hcf2]
  refine ⟨?_, ?_, ?_⟩
  · rw [hgx]
    simp [getOrCreate, mapGet_mapSet_self]
  · rw [hgy, hgx]
    omega
  · rw [hgy, hgx]
    simp only [responsibleFor, findResponsibleContainer,
      mapGet_mapSet_ne _ _ hzy, mapGet_mapSet_ne _ _ hzx, hza, hzc, hz,
      mapGet_mapSet_ne _ _ hxy, mapGet_mapSet_self, mapGet_mapSet_ne _ _ hne2]

/-- Witness for claim C8 at a concrete input: node 2 is a child of node 0,
node 1 is unrelated, and the world starts empty. -/
theorem c8_witness :
    (getOrCreate (getOrCreate ⟨[(2, 0)], [], [], [], 0⟩ 0).2 0).1
        = (getOrCreate ⟨[(2, 0)], [], [], [], 0⟩ 0).1
    ∧ (getOrCreate (getOrCreate ⟨[(2, 0)], [], [], [], 0⟩ 0).2 1).1
        ≠ (getOrCreate ⟨[(2, 0)], [], [], [], 0⟩ 0).1
    ∧ responsibleFor (getOrCreate (getOrCreate ⟨[(2, 0)], [], [], [], 0⟩ 0).2 1).2 1 2
        = some (getOrCreate ⟨[(2, 0)], [], [], [], 0⟩ 0).1 :=
  c8_getOrCreate_scoping ⟨[(2, 0)], [], [], [], 0⟩ 0 1 2
    (by decide) (by decide) (by decide) (by decide) (by decide)
    (by decide) (by decide) (by decide) (by decide) (by decide)
    (by decide) (by decide)

theorem mapGet_mapSet_ne_none {α β : Type} [DecidableEq α] {m : List (α × β)}
    {k' : α} (k : α) (v : β) (h : mapGet m k' ≠ none) :
    mapGet (mapSet m k v) k' ≠ none := by
  by_cases hk : k' = k
  · subst hk
    rw [mapGet_mapSet_self]
    exact Option.some_ne_none v
  · rw [mapGet_mapSet_ne _ _ hk]
    exact h

theorem tagsHaveTypes_init : TagsHaveTypes initState := by
  intro t n h
  simp [initState, mapGet] at h

theorem tagsHaveTypes_step {d : DisambiguationCallback} {mode : Option Nat}
    {s : DSState} {a : Attempt} (hInv : TagsHaveTypes s) :
    TagsHaveTypes (tryDefineElement d mode s a).1 := by
  cases hl : disambiguationLoop d a.type.toCtor s.elementTypesByTag a.fuel (.str a.name) with
  | abort =>
    rw [tryDefineElement_abort hl]
    exact hInv
  | fuelOut =>
    rw [tryDefineElement_fuelOut hl]
    exact hInv
  | done nm nd =>
    cases nd with
    | false =>
      rw [tryDefineElement_done_false hl]
      exact hInv
    | true =>
      rw [tryDefineElement_done_true hl]
      intro t n hg
      show mapGet (mapSet s.elementTypesByTag nm (synthesizedType s a.type.toCtor)) n ≠ none
      have hold : ∀ n0, mapGet s.elementTypesByTag n0 ≠ none →
          mapGet (mapSet s.elementTypesByTag nm (synthesizedType s a.type.toCtor)) n0
            ≠ none :=
        fun n0 h0 => mapGet_mapSet_ne_none _ _ h0
      have hnm : mapGet (mapSet s.elementTypesByTag nm (synthesizedType s a.type.toCtor)) nm
          ≠ none := by
        rw [mapGet_mapSet_self]
        exact Option.some_ne_none _
      replace hg : mapGet (baseWrite
          (mapSet s.elementTagsByType (synthesizedType s a.type.toCtor) nm) a.base nm) t
          = some n := hg
      cases hb : a.base with
      | none =>
        rw [hb] at hg
        unfold baseWrite at hg
        rcases mapGet_mapSet_cases hg with ⟨_, hv⟩ | ⟨_, hg'⟩
        · rw [hv]
          exact hnm
        · exact hold n (hInv _ _ hg')
      | some b =>
        rw [hb] at hg
        unfold baseWrite at hg
        rcases mapGet_mapSet_cases hg with ⟨_, hv⟩ | ⟨_, hg'⟩
        · rw [hv]
          exact hnm
        · rcases mapGet_mapSet_cases hg' with ⟨_, hv⟩ | ⟨_, hg2⟩
          · rw [hv]
            exact hnm
          · exact hold n (hInv _ _ hg2)

theorem tagsHaveTypes_run {d : DisambiguationCallback} {mode : Option Nat} :
    ∀ {s : DSState} {attempts : List Attempt}, TagsHaveTypes s →
      TagsHaveTypes (runAttempts d mode s attempts).1 := by
  intro s attempts
  induction attempts generalizing s with
  | nil => exact fun h => h
  | cons a rest ih =>
    intro h
    rw [runAttempts_fst]
    exact ih (tagsHaveTypes_step h)
